import Mathlib

/-!
# Formal model of the nosh restaurant backend

A shallow embedding, in Lean 4, of the recommendation, ranking, analytics-cache
and rating logic of the nosh repository (an Express/Mongoose restaurant
backend).  JavaScript numbers are modelled as rationals, fallible code as
`Except`/`Option`, the Mongo catalog as a list of menu items, and Mongo query
objects as records of optional constraints with an explicit matching
semantics.  `Array.prototype.sort` (stable) and Mongo's `sort()` are modelled
by a stable insertion sort on a key into a linear order.
-/

section SortInfra

variable {α : Type _} {β : Type _} [LinearOrder β]

/-- Stable descending insertion: `x` is placed before the first element whose
key is `≤ key x`; elements with equal key that were already in the list stay
after `x` only if they were inserted later, which gives the stability of
JavaScript `Array.prototype.sort` with comparator `(a, b) => key b - key a`. -/
def insertDesc (key : α → β) (x : α) : List α → List α
  | [] => [x]
  | y :: ys => if key y ≤ key x then x :: y :: ys else y :: insertDesc key x ys

/-- Stable sort, descending by `key`. -/
def sortDescBy (key : α → β) : List α → List α
  | [] => []
  | x :: xs => insertDesc key x (sortDescBy key xs)

theorem insertDesc_perm (key : α → β) (x : α) :
    ∀ l : List α, (insertDesc key x l).Perm (x :: l)
  | [] => List.Perm.refl _
  | y :: ys => by
    rw [insertDesc]
    split
    · exact List.Perm.refl _
    · exact ((insertDesc_perm key x ys).cons y).trans (List.Perm.swap x y ys)

theorem sortDescBy_perm (key : α → β) : ∀ l : List α, (sortDescBy key l).Perm l
  | [] => List.Perm.refl _
  | x :: xs =>
    (insertDesc_perm key x (sortDescBy key xs)).trans ((sortDescBy_perm key xs).cons x)

theorem mem_insertDesc {key : α → β} {x b : α} {l : List α} :
    b ∈ insertDesc key x l ↔ b = x ∨ b ∈ l := by
  rw [(insertDesc_perm key x l).mem_iff, List.mem_cons]

theorem insertDesc_pairwise {key : α → β} {x : α} {l : List α}
    (h : l.Pairwise (fun a b => key b ≤ key a)) :
    (insertDesc key x l).Pairwise (fun a b => key b ≤ key a) := by
  induction l with
  | nil => simp [insertDesc]
  | cons y ys ih =>
    rw [insertDesc]
    rcases List.pairwise_cons.mp h with ⟨hy, hys⟩
    by_cases hxy : key y ≤ key x
    · rw [if_pos hxy]
      refine List.Pairwise.cons ?_ h
      intro b hb
      rcases List.mem_cons.mp hb with rfl | hb
      · exact hxy
      · exact le_trans (hy b hb) hxy
    · rw [if_neg hxy]
      have hx : key x ≤ key y := le_of_lt (not_le.mp hxy)
      refine List.Pairwise.cons ?_ (ih hys)
      intro b hb
      rcases mem_insertDesc.mp hb with rfl | hb
      · exact hx
      · exact hy b hb

theorem sortDescBy_pairwise (key : α → β) :
    ∀ l : List α, (sortDescBy key l).Pairwise (fun a b => key b ≤ key a)
  | [] => List.Pairwise.nil
  | x :: xs => insertDesc_pairwise (sortDescBy_pairwise key xs)

theorem insertDesc_filter_pos {key : α → β} {x : α} {s : β} (hx : key x = s) :
    ∀ l : List α, (insertDesc key x l).filter (fun a => decide (key a = s)) =
      x :: l.filter (fun a => decide (key a = s)) := by
  intro l
  induction l with
  | nil => simp [insertDesc, hx]
  | cons y ys ih =>
    rw [insertDesc]
    by_cases hxy : key y ≤ key x
    · rw [if_pos hxy]
      simp [List.filter_cons, hx]
    · rw [if_neg hxy]
      have hy : ¬ (key y = s) := fun h => hxy (le_of_eq (h.trans hx.symm))
      simp [List.filter_cons, hy, ih]

theorem insertDesc_filter_neg {key : α → β} {x : α} {s : β} (hx : ¬ (key x = s)) :
    ∀ l : List α, (insertDesc key x l).filter (fun a => decide (key a = s)) =
      l.filter (fun a => decide (key a = s)) := by
  intro l
  induction l with
  | nil => simp [insertDesc, hx]
  | cons y ys ih =>
    rw [insertDesc]
    by_cases hxy : key y ≤ key x
    · rw [if_pos hxy]
      simp [List.filter_cons, hx]
    · rw [if_neg hxy]
      simp [List.filter_cons, ih]

/-- Stability of the descending sort: for any key value `s`, the elements whose
key equals `s` appear in the sorted list exactly in their original order. -/
theorem sortDescBy_filter (key : α → β) (s : β) :
    ∀ l : List α, (sortDescBy key l).filter (fun a => decide (key a = s)) =
      l.filter (fun a => decide (key a = s)) := by
  intro l
  induction l with
  | nil => rfl
  | cons x xs ih =>
    rw [sortDescBy]
    by_cases hx : key x = s
    · rw [insertDesc_filter_pos hx, ih, List.filter_cons, if_pos (by simpa using hx)]
    · rw [insertDesc_filter_neg hx, ih, List.filter_cons, if_neg (by simpa using hx)]

theorem insertDesc_map_pair (f : α → β) (x : α) :
    ∀ l : List α, insertDesc Prod.snd (x, f x) (l.map (fun a => (a, f a))) =
      (insertDesc f x l).map (fun a => (a, f a)) := by
  intro l
  induction l with
  | nil => rfl
  | cons y ys ih =>
    rw [List.map_cons]
    show insertDesc Prod.snd (x, f x) ((y, f y) :: ys.map (fun a => (a, f a))) = _
    rw [insertDesc, insertDesc]
    by_cases h : f y ≤ f x
    · simp [h]
    · simp [h, ih]

/-- Sorting item/score pairs by the score component is the same as sorting the
items by their score and re-pairing. -/
theorem sortDescBy_map_pair (f : α → β) :
    ∀ l : List α, sortDescBy Prod.snd (l.map (fun a => (a, f a))) =
      (sortDescBy f l).map (fun a => (a, f a)) := by
  intro l
  induction l with
  | nil => rfl
  | cons x xs ih =>
    rw [List.map_cons]
    show insertDesc Prod.snd (x, f x) (sortDescBy Prod.snd (xs.map fun a => (a, f a))) = _
    rw [ih, sortDescBy, insertDesc_map_pair]

end SortInfra

section Counting

/-- JavaScript `String.prototype.toLowerCase`, modelled character-wise. -/
def lowerStr (s : String) : String := ⟨s.data.map Char.toLower⟩

/-- One step of counting occurrences in a JavaScript object used as a counter
(`obj[k] = (obj[k] || 0) + 1`): association list in key-insertion order. -/
def bump (k : String) : List (String × Nat) → List (String × Nat)
  | [] => [(k, 1)]
  | (k', n) :: rest => if k' = k then (k', n + 1) :: rest else (k', n) :: bump k rest

/-- Counter built by bumping every element of `l` in order, starting empty:
the model of the `categoryCount` / `ingredientCount` objects. -/
def bumpFold (l : List String) : List (String × Nat) :=
  l.foldl (fun acc c => bump c acc) []

/-- The list of first occurrences of `l`, in order: the key order of a
JavaScript object whose string keys were inserted while scanning `l`. -/
def firstSeen (l : List String) : List String :=
  l.foldl (fun acc a => if a ∈ acc then acc else acc ++ [a]) []

theorem mem_firstSeenAux (a : String) :
    ∀ (l acc : List String),
      a ∈ l.foldl (fun acc b => if b ∈ acc then acc else acc ++ [b]) acc ↔
        a ∈ acc ∨ a ∈ l := by
  intro l
  induction l with
  | nil => simp
  | cons x xs ih =>
    intro acc
    rw [List.foldl_cons, ih]
    by_cases hx : x ∈ acc
    · simp only [if_pos hx, List.mem_cons]
      constructor
      · rintro (h | h)
        · exact Or.inl h
        · exact Or.inr (Or.inr h)
      · rintro (h | rfl | h)
        · exact Or.inl h
        · exact Or.inl hx
        · exact Or.inr h
    · simp only [if_neg hx, List.mem_append, List.mem_singleton, List.mem_cons]
      tauto

theorem mem_firstSeen {a : String} {l : List String} : a ∈ firstSeen l ↔ a ∈ l := by
  rw [firstSeen, mem_firstSeenAux]
  simp

theorem nodup_firstSeenAux :
    ∀ (l acc : List String), acc.Nodup →
      (l.foldl (fun acc b => if b ∈ acc then acc else acc ++ [b]) acc).Nodup := by
  intro l
  induction l with
  | nil => intro acc h; simpa using h
  | cons x xs ih =>
    intro acc h
    rw [List.foldl_cons]
    by_cases hx : x ∈ acc
    · rw [if_pos hx]; exact ih acc h
    · rw [if_neg hx]
      refine ih _ ?_
      rw [List.nodup_append]
      exact ⟨h, List.nodup_singleton x, by simpa using fun hmem => hx hmem⟩

theorem nodup_firstSeen (l : List String) : (firstSeen l).Nodup :=
  nodup_firstSeenAux l [] List.nodup_nil

theorem firstSeen_append_singleton (p : List String) (x : String) :
    firstSeen (p ++ [x]) = if x ∈ p then firstSeen p else firstSeen p ++ [x] := by
  rw [firstSeen, List.foldl_append]
  show (if x ∈ firstSeen p then firstSeen p else firstSeen p ++ [x]) = _
  by_cases hx : x ∈ p
  · rw [if_pos (mem_firstSeen.mpr hx), if_pos hx]
  · rw [if_neg (fun h => hx (mem_firstSeen.mp h)), if_neg hx]

theorem bump_map_mem (x : String) (f : String → Nat) :
    ∀ ks : List String, ks.Nodup → x ∈ ks →
      bump x (ks.map (fun k => (k, f k))) =
        ks.map (fun k => (k, if k = x then f k + 1 else f k)) := by
  intro ks
  induction ks with
  | nil => intro _ h; cases h
  | cons k ks ih =>
    intro hnd hmem
    rcases List.pairwise_cons.mp hnd with ⟨hk, hnd'⟩
    rw [List.map_cons, List.map_cons, bump]
    by_cases hkx : k = x
    · rw [if_pos hkx, if_pos hkx]
      congr 1
      refine (List.map_congr_left ?_).symm
      intro a ha
      have : ¬ (a = x) := fun h => (hk a ha) (hkx.trans h.symm)
      simp [this]
    · rw [if_neg hkx, if_neg hkx]
      congr 1
      exact ih hnd' ((List.mem_cons.mp hmem).resolve_left (fun h => hkx h.symm))

theorem bump_map_not_mem (x : String) (f : String → Nat) :
    ∀ ks : List String, ¬ (x ∈ ks) →
      bump x (ks.map (fun k => (k, f k))) = ks.map (fun k => (k, f k)) ++ [(x, 1)] := by
  intro ks
  induction ks with
  | nil => intro _; rfl
  | cons k ks ih =>
    intro hx
    have hkx : ¬ (k = x) := fun h => hx (by rw [← h]; exact List.mem_cons_self k ks)
    simp only [List.map_cons, bump, if_neg hkx, List.cons_append]
    exact congrArg (fun t => (k, f k) :: t) (ih (fun h => hx (List.mem_cons_of_mem k h)))

theorem count_append_singleton (p : List String) (x k : String) :
    (p ++ [x]).count k = p.count k + if k = x then 1 else 0 := by
  rw [List.count_append]
  congr 1
  by_cases h : k = x
  · simp [h]
  · simp [List.count_singleton', h]

theorem bumpStep (p : List String) (x : String) :
    bump x ((firstSeen p).map (fun k => (k, p.count k))) =
      (firstSeen (p ++ [x])).map (fun k => (k, (p ++ [x]).count k)) := by
  rw [firstSeen_append_singleton]
  by_cases hx : x ∈ p
  · rw [if_pos hx,
      bump_map_mem x (fun k => p.count k) (firstSeen p) (nodup_firstSeen p)
        (mem_firstSeen.mpr hx)]
    refine List.map_congr_left ?_
    intro a _
    rw [count_append_singleton]
    by_cases hax : a = x <;> simp [hax]
  · rw [if_neg hx,
      bump_map_not_mem x (fun k => p.count k) (firstSeen p)
        (fun h => hx (mem_firstSeen.mp h))]
    rw [List.map_append]
    congr 1
    · refine List.map_congr_left ?_
      intro a ha
      have hax : ¬ (a = x) := fun h => hx (h ▸ mem_firstSeen.mp ha)
      simp [count_append_singleton, hax]
    · have : p.count x = 0 := List.count_eq_zero.mpr hx
      simp [count_append_singleton, this]

theorem bumpFoldAux :
    ∀ (l p : List String),
      l.foldl (fun acc c => bump c acc) ((firstSeen p).map (fun k => (k, p.count k))) =
        (firstSeen (p ++ l)).map (fun k => (k, (p ++ l).count k)) := by
  intro l
  induction l with
  | nil => intro p; simp
  | cons x xs ih =>
    intro p
    rw [List.foldl_cons, bumpStep, ih (p ++ [x]), List.append_assoc,
      List.singleton_append]

/-- The counter object built by scanning `l` holds, in first-seen key order,
the number of occurrences of each distinct element of `l`. -/
theorem bumpFold_eq (l : List String) :
    bumpFold l = (firstSeen l).map (fun k => (k, l.count k)) := by
  have h := bumpFoldAux l []
  simpa [bumpFold, firstSeen] using h

end Counting

section DataModel

/-- An ingredient subdocument of a menu item (src/models/Menu.js,
`ingredientSchema`): name is required, allergens is a list of tags. -/
structure Ingredient where
  name : String
  allergens : List String
deriving DecidableEq

/-- The five independent dietary flags of a menu item
(src/models/Menu.js, `dietary`). -/
structure DietaryFlags where
  vegetarian : Bool
  vegan : Bool
  glutenFree : Bool
  dairyFree : Bool
  spicy : Bool
deriving DecidableEq

/-- The running rating state of a menu item (src/models/Menu.js, `rating`):
an embedded document whose fields appear in schema order `average`, `count`. -/
structure Rating where
  average : ℚ
  count : ℚ
deriving DecidableEq

/-- A menu item (src/models/Menu.js, `menuItemSchema`), restricted to the
fields the recommendation logic reads. -/
structure MenuItem where
  name : String
  category : String
  price : ℚ
  ingredients : List Ingredient
  dietary : DietaryFlags
  availability : String
  rating : Rating
  popularity : ℚ
deriving DecidableEq

/-- A price range `{min, max}`. -/
structure PriceRange where
  min : ℚ
  max : ℚ
deriving DecidableEq

/-- The dietary flags a customer may request (the four read by
`getRecommendations`; `spicy` is driven by `spiceLevel` instead). -/
structure DietaryPrefs where
  vegetarian : Bool
  vegan : Bool
  glutenFree : Bool
  dairyFree : Bool
deriving DecidableEq

/-- The `preferences` argument of `AIService.getRecommendations`, after the
destructuring defaults of src/unnamed/part_000 lines 612-619 have been
applied.  `category = none` models the `null` default. -/
structure CustomerPreferences where
  dietary : DietaryPrefs
  allergies : List String
  spiceLevel : String
  priceRange : PriceRange
  category : Option String
  ingredients : List String
deriving DecidableEq

end DataModel

section QueryModel

/-- The Mongo query object built by `getRecommendations`: one optional
constraint per field the code may set.  `price` is the `{$gte, $lte}` pair,
`allergensNin` the `{'ingredients.allergens': {$nin: ...}}` clause and
`ingredientNameIn` the `{'ingredients.name': {$in: [/i-regexes/]}}` clause. -/
structure Query where
  availability : Option String
  vegetarian : Option Bool
  vegan : Option Bool
  glutenFree : Option Bool
  dairyFree : Option Bool
  spicy : Option Bool
  price : Option (ℚ × ℚ)
  category : Option String
  allergensNin : Option (List String)
  ingredientNameIn : Option (List String)
deriving DecidableEq

/-- The query with no constraints. -/
def emptyQuery : Query :=
  ⟨none, none, none, none, none, none, none, none, none, none⟩

/-- A constraint that is absent always passes. -/
def optCheck (f : α → Bool) : Option α → Bool
  | none => true
  | some v => f v

/-- Case-insensitive substring test: the semantics of matching the field
against `new RegExp(pat, 'i')` for a pattern with no regex metacharacters,
which is how `getRecommendations` matches preferred ingredient names. -/
def icontains (hay pat : String) : Bool :=
  decide ((lowerStr pat).data <:+: (lowerStr hay).data)

/-- Mongo matching semantics of a `Query` against one document.
On the array paths: `{'ingredients.allergens': {$nin: L}}` matches iff no
allergen tag of any ingredient is in `L`; `{'ingredients.name': {$in:
regexes}}` matches iff some ingredient name matches some regex. -/
def matchesQuery (q : Query) (it : MenuItem) : Bool :=
  optCheck (fun s => it.availability == s) q.availability &&
  optCheck (fun b => it.dietary.vegetarian == b) q.vegetarian &&
  optCheck (fun b => it.dietary.vegan == b) q.vegan &&
  optCheck (fun b => it.dietary.glutenFree == b) q.glutenFree &&
  optCheck (fun b => it.dietary.dairyFree == b) q.dairyFree &&
  optCheck (fun b => it.dietary.spicy == b) q.spicy &&
  optCheck (fun pr => decide (pr.1 ≤ it.price) && decide (it.price ≤ pr.2)) q.price &&
  optCheck (fun c => it.category == c) q.category &&
  optCheck (fun al => !(it.ingredients.any (fun ing =>
    ing.allergens.any (fun a => al.contains a)))) q.allergensNin &&
  optCheck (fun pats => it.ingredients.any (fun ing =>
    pats.any (fun pat => icontains ing.name pat))) q.ingredientNameIn

/-- The primary filter of `AIService.getRecommendations`
(src/unnamed/part_000 lines 621-648), written as one record: the source
builds it by conditionally assigning distinct fields of a query object, each
field exactly once, so the record of per-field conditionals is the same
object. -/
def buildPrimaryQuery (p : CustomerPreferences) : Query where
  availability := some "available"
  vegetarian := if p.dietary.vegetarian then some true else none
  vegan := if p.dietary.vegan then some true else none
  glutenFree := if p.dietary.glutenFree then some true else none
  dairyFree := if p.dietary.dairyFree then some true else none
  spicy :=
    if p.spiceLevel = "mild" then some false
    else if p.spiceLevel = "hot" ∨ p.spiceLevel = "extra-hot" then some true
    else none
  price := some (p.priceRange.min, p.priceRange.max)
  category := p.category
  allergensNin := if p.allergies.isEmpty then none else some p.allergies
  ingredientNameIn := if p.ingredients.isEmpty then none else some p.ingredients

/-- The relaxed fallback filter (src/unnamed/part_000 lines 656-659):
availability plus, when vegetarian or vegan was requested, the vegetarian
flag; everything else dropped. -/
def relaxedQuery (p : CustomerPreferences) : Query :=
  if p.dietary.vegetarian || p.dietary.vegan then
    { emptyQuery with availability := some "available", vegetarian := some true }
  else
    { emptyQuery with availability := some "available" }

/-- The Mongo sort key of `.sort({rating: -1, popularity: -1})`: `rating` is
an embedded document, which BSON compares field by field in schema order
(`average` then `count`), with `popularity` as the final key. -/
def mongoKey (it : MenuItem) : Lex (ℚ × Lex (ℚ × ℚ)) :=
  toLex (it.rating.average, toLex (it.rating.count, it.popularity))

/-- `MenuItem.find(query).sort({rating: -1, popularity: -1}).limit(10)` over
a catalog modelled as a list. -/
def menuFind (store : List MenuItem) (q : Query) : List MenuItem :=
  (sortDescBy mongoKey (store.filter (matchesQuery q))).take 10

end QueryModel

section HistoryModel

/-- An ingredient as it appears inside a customer-history entry.  The name is
optional: `analyzeCustomerHistory` calls `.toLowerCase()` on it without a
guard, so a missing name is the throw site of the scoring path. -/
structure HistIngredient where
  name : Option String
deriving DecidableEq

/-- The populated `menuItem` reference inside a history entry; the code
guards on `item.menuItem && item.menuItem.category` and on
`item.menuItem.ingredients` before reading them. -/
structure HistMenuItem where
  category : Option String
  ingredients : Option (List HistIngredient)
deriving DecidableEq

/-- One purchased line inside a history order: a possibly-missing menu-item
reference plus the price at time of purchase (`item.price`). -/
structure HistOrderItem where
  menuItem : Option HistMenuItem
  price : ℚ
deriving DecidableEq

/-- One order of the customer history. -/
structure HistOrder where
  items : List HistOrderItem
deriving DecidableEq

/-- The analysis record produced by `analyzeCustomerHistory`
(src/unnamed/part_000 lines 733-738). -/
structure HistoryAnalysis where
  preferredCategories : List String
  preferredIngredients : List String
  priceRange : PriceRange
  spicePreference : String
deriving DecidableEq

/-- One step of the `categoryCount` loop (lines 744-750): count the category
when the item has a populated menu item with a category. -/
def catStep (acc : List (String × Nat)) (it : HistOrderItem) : List (String × Nat) :=
  match it.menuItem with
  | some mi =>
    match mi.category with
    | some c => bump c acc
    | none => acc
  | none => acc

/-- The whole `categoryCount` object. -/
def catFold (history : List HistOrder) : List (String × Nat) :=
  history.foldl (fun acc o => o.items.foldl catStep acc) []

/-- Left fold that propagates the first thrown error, modelling a `forEach`
body that may throw. -/
def foldE (f : β → α → Except Unit β) : β → List α → Except Unit β
  | acc, [] => Except.ok acc
  | acc, a :: as =>
    match f acc a with
    | Except.ok acc2 => foldE f acc2 as
    | Except.error e => Except.error e

/-- One ingredient of the `ingredientCount` loop (lines 760-768):
`ingredient.name.toLowerCase()` throws when the name is missing. -/
def ingStepE (acc : List (String × Nat)) (ing : HistIngredient) :
    Except Unit (List (String × Nat)) :=
  match ing.name with
  | some n => Except.ok (bump (lowerStr n) acc)
  | none => Except.error ()

/-- One history line of the `ingredientCount` loop: guarded on
`item.menuItem && item.menuItem.ingredients`. -/
def itemIngFoldE (acc : List (String × Nat)) (it : HistOrderItem) :
    Except Unit (List (String × Nat)) :=
  match it.menuItem with
  | some mi =>
    match mi.ingredients with
    | some ings => foldE ingStepE acc ings
    | none => Except.ok acc
  | none => Except.ok acc

/-- The whole `ingredientCount` object, or the first thrown error. -/
def ingFoldE (history : List HistOrder) : Except Unit (List (String × Nat)) :=
  foldE (fun acc o => foldE itemIngFoldE acc o.items) [] history

/-- The price list `history.flatMap(order => order.items.map(item => item.price))`
(lines 777-779). -/
def histPrices (history : List HistOrder) : List ℚ :=
  List.flatMap history (fun o => o.items.map (fun it => it.price))

/-- `AIService.analyzeCustomerHistory` (src/unnamed/part_000 lines 732-786)
with the possible `TypeError` of the ingredient loop made explicit.  Category
counting runs first, then ingredient counting (where a missing ingredient
name throws), then the price band. -/
def analyzeCustomerHistoryE (history : List HistOrder) : Except Unit HistoryAnalysis :=
  if history.isEmpty then
    Except.ok ⟨[], [], ⟨0, 100⟩, "medium"⟩
  else
    let preferredCategories :=
      ((sortDescBy Prod.snd (catFold history)).take 3).map Prod.fst
    match ingFoldE history with
    | Except.error e => Except.error e
    | Except.ok ingredientCount =>
      let preferredIngredients :=
        ((sortDescBy Prod.snd ingredientCount).take 10).map Prod.fst
      let priceRange : PriceRange :=
        match histPrices history with
        | [] => ⟨0, 100⟩
        | q :: qs => ⟨(qs.foldl min q) * (8/10), (qs.foldl max q) * (12/10)⟩
      Except.ok ⟨preferredCategories, preferredIngredients, priceRange, "medium"⟩

/-- The score assigned to one candidate by `rankByAI`
(src/unnamed/part_000 lines 694-718). -/
def scoreItem (a : HistoryAnalysis) (it : MenuItem) : ℚ :=
  it.rating.average * (4/10) + it.popularity * (1/10) +
  (if a.preferredCategories.contains it.category then (3/10) else 0) +
  ((it.ingredients.filter (fun ing =>
     a.preferredIngredients.contains (lowerStr ing.name))).length : ℚ) * (2/10) +
  (if a.priceRange.min ≤ it.price ∧ it.price ≤ a.priceRange.max then (2/10) else 0)

/-- The scoring and stable descending sort of `rankByAI`, given a successful
history analysis: build (item, score) pairs, sort by score descending
(JavaScript `sort` is stable), return the items. -/
def rankWithAnalysis (a : HistoryAnalysis) (items : List MenuItem) : List MenuItem :=
  (sortDescBy Prod.snd (items.map (fun it => (it, scoreItem a it)))).map Prod.fst

/-- `AIService.rankByAI` (src/unnamed/part_000 lines 688-729): the whole body
is wrapped in try/catch and returns the input list unchanged on any error. -/
def rankByAI (items : List MenuItem) (customerHistory : List HistOrder) : List MenuItem :=
  match analyzeCustomerHistoryE customerHistory with
  | Except.error _ => items
  | Except.ok a => rankWithAnalysis a items

end HistoryModel

section Recommendations

/-- The result object of `getRecommendations` on its success path. -/
structure RecResult where
  success : Bool
  recommendations : List MenuItem
  count : Nat
  preferences : CustomerPreferences
deriving DecidableEq

/-- `AIService.getRecommendations` (src/unnamed/part_000 lines 610-685) over
a catalog modelled as a list: primary filtered query, a single relaxed retry
when it is empty, optional history ranking, and a success result. -/
def getRecommendations (store : List MenuItem) (p : CustomerPreferences)
    (customerHistory : List HistOrder) : RecResult :=
  let recs := menuFind store (buildPrimaryQuery p)
  let recs := if recs.isEmpty then menuFind store (relaxedQuery p) else recs
  let recs := if customerHistory.isEmpty then recs else rankByAI recs customerHistory
  ⟨true, recs, recs.length, p⟩

end Recommendations

deriving instance DecidableEq for Except

section CacheModel

variable {π : Type _}

/-- The module-level `analyticsCache` object of the analytics router
(src/unnamed/part_001 lines 502-507), generic over the payload type.
`lastUpdated = none` models the initial `null`. -/
structure AnalyticsCache (π : Type _) where
  salesData : Option π
  popularItems : Option π
  customerInsights : Option π
  lastUpdated : Option Int
deriving DecidableEq

/-- The cache in its initial / cleared state. -/
def emptyAnalyticsCache : AnalyticsCache π := ⟨none, none, none, none⟩

/-- JavaScript property lookup `analyticsCache[key]`: only the three data
keys and nothing else exist on the object, so any other key reads
`undefined` (`none`). -/
def cacheLookup (c : AnalyticsCache π) (key : String) : Option π :=
  if key = "salesData" then c.salesData
  else if key = "popularItems" then c.popularItems
  else if key = "customerInsights" then c.customerInsights
  else none

/-- `CACHE_EXPIRY` (src/unnamed/part_001 line 510), in milliseconds. -/
def CACHE_EXPIRY : Int := 5 * 60 * 1000

/-- A JSON response of a cached analytics route; `data = none` models the
empty object produced by the `analyticsCache[req.route.path] || {}`
fallback, `data = some v` a response carrying payload `v`. -/
structure CachedResponse (π : Type _) where
  success : Bool
  data : Option π
  cached : Bool
deriving DecidableEq

/-- The `checkCache` middleware (src/unnamed/part_001 lines 513-524):
on a fresh cache it answers immediately with
`analyticsCache[req.route.path] || {}`; otherwise it falls through
(`none`) to the route handler. -/
def checkCache (c : AnalyticsCache π) (now : Int) (routePath : String) :
    Option (CachedResponse π) :=
  match c.lastUpdated with
  | some t =>
    if now - t < CACHE_EXPIRY then some ⟨true, cacheLookup c routePath, true⟩
    else none
  | none => none

/-- `router.get('/sales', checkCache, ...)` (src/unnamed/part_001 lines
527-639): a cache hit is served by the middleware (with `req.route.path =
'/sales'`); on a miss the handler computes `result`, stores it under the
`salesData` key, stamps `lastUpdated` and responds with the result. -/
def handleSales (c : AnalyticsCache π) (now : Int) (result : π) :
    CachedResponse π × AnalyticsCache π :=
  match checkCache c now "/sales" with
  | some resp => (resp, c)
  | none =>
    (⟨true, some result, false⟩,
     { c with salesData := some result, lastUpdated := some now })

end CacheModel

section EnrichmentModel

/-- The outcome of the single outbound text-generation call:
`success (some content)` is a well-formed response body whose first choice
carries `content`; `success none` is a response missing the
`data.choices[0].message` shape; `failure` is any thrown error (network
error, non-2xx status, or the 30-second timeout), which axios raises and the
service catches. -/
inductive ApiOutcome where
  | success (content : Option String)
  | failure
deriving DecidableEq

/-- `AIService.enhanceDescription` (src/unnamed/part_000 lines 837-884).
Total: every failure path returns the original description instead of
raising. -/
def enhanceDescription (apiKey : Option String) (outcome : ApiOutcome)
    (originalDescription : String) : String :=
  match apiKey with
  | none => originalDescription
  | some _ =>
    match outcome with
    | ApiOutcome.success (some content) =>
      let enhanced := content.trim
      if enhanced = "" then originalDescription else enhanced
    | ApiOutcome.success none => originalDescription
    | ApiOutcome.failure => originalDescription

/-- The result object of `answerQuestion`. -/
structure AnswerResult where
  success : Bool
  answer : String
  source : String
deriving DecidableEq

/-- The fixed no-credential fallback of `answerQuestion`
(src/unnamed/part_000 lines 889-895). -/
def noKeyAnswer : AnswerResult :=
  ⟨false, "AI service is not available. Please contact staff for assistance.",
   "fallback"⟩

/-- The fallback for a response with the right shape but empty content. -/
def emptyAnswerFallback : String :=
  "I apologize, but I couldn\x27t generate a response. Please ask our staff for assistance."

/-- The fallback for a malformed response shape (lines 944-948). -/
def malformedAnswer : AnswerResult :=
  ⟨false, "I apologize, but I couldn\x27t process your question. Please ask our staff for assistance.",
   "fallback"⟩

/-- The catch-all fallback (lines 950-957). -/
def errorAnswer : AnswerResult :=
  ⟨false, "I apologize, but I\x27m experiencing technical difficulties. Please ask our staff for assistance.",
   "fallback"⟩

/-- `AIService.answerQuestion` (src/unnamed/part_000 lines 887-958).
Total: every failure path returns a fallback-tagged result instead of
raising. -/
def answerQuestion (apiKey : Option String) (outcome : ApiOutcome) : AnswerResult :=
  match apiKey with
  | none => noKeyAnswer
  | some _ =>
    match outcome with
    | ApiOutcome.success (some content) =>
      let answer := content.trim
      if answer = "" then ⟨true, emptyAnswerFallback, "ai"⟩ else ⟨true, answer, "ai"⟩
    | ApiOutcome.success none => malformedAnswer
    | ApiOutcome.failure => errorAnswer

end EnrichmentModel

section RatingModel

/-- `menuItemSchema.methods.updateRating` (src/models/Menu.js lines 117-122):
`totalRating = average * count + newRating; count += 1;
average = totalRating / count`. -/
def updateRating (r : Rating) (newRating : ℚ) : Rating :=
  let totalRating := r.average * r.count + newRating
  ⟨totalRating / (r.count + 1), r.count + 1⟩

end RatingModel

section SpecSide

/-- Spec side: the multiset of categories the history mentions, in history
order (one entry per purchased line carrying a populated category). -/
def histCategories (history : List HistOrder) : List String :=
  List.flatMap history
    (fun o => o.items.filterMap (fun it => it.menuItem.bind (fun mi => mi.category)))

/-- The lower-cased ingredient names of one history line. -/
def itemIngNamesLower (it : HistOrderItem) : List String :=
  match it.menuItem with
  | some mi =>
    match mi.ingredients with
    | some ings => ings.filterMap (fun ing => ing.name.map lowerStr)
    | none => []
  | none => []

/-- Spec side: the multiset of lower-cased ingredient names of the history,
in history order. -/
def histIngLower (history : List HistOrder) : List String :=
  List.flatMap history (fun o => List.flatMap o.items itemIngNamesLower)

/-- Spec side: the `k` most frequent elements of `l`, most frequent first,
ties broken in favor of the element first seen in `l`. -/
def specTopFrequent (k : Nat) (l : List String) : List String :=
  ((sortDescBy Prod.snd ((firstSeen l).map (fun c => (c, l.count c)))).take k).map
    Prod.fst

/-- The derived price band: `[min(prices) * 0.8, max(prices) * 1.2]` for a
non-empty price list, the `{min: 0, max: 100}` default otherwise. -/
def specBand : List ℚ → PriceRange
  | [] => ⟨0, 100⟩
  | q :: qs => ⟨(qs.foldl min q) * (8/10), (qs.foldl max q) * (12/10)⟩

/-- All ingredient names of one history line are present (so scoring this
line cannot throw). -/
def ingNamesOk (it : HistOrderItem) : Bool :=
  match it.menuItem with
  | some mi =>
    match mi.ingredients with
    | some ings => ings.all (fun ing => ing.name.isSome)
    | none => true
  | none => true

/-- All ingredient names in the whole history are present. -/
def namesPresent (history : List HistOrder) : Bool :=
  history.all (fun o => o.items.all ingNamesOk)

/-- The ordering claimed for the matcher result: descending by rating
average, ties descending by popularity (checked between neighbours). -/
def claimedOrderedB : List MenuItem → Bool
  | [] => true
  | [_] => true
  | a :: b :: rest =>
    (decide (b.rating.average < a.rating.average) ||
      (decide (a.rating.average = b.rating.average) &&
        decide (b.popularity ≤ a.popularity))) &&
    claimedOrderedB (b :: rest)

end SpecSide

section Fixtures

/-- An item with no dietary flags set. -/
def dietNone : DietaryFlags := ⟨false, false, false, false, false⟩

/-- Preferences carrying only the destructuring defaults of
`getRecommendations`: no dietary flags, no allergies, medium spice,
price 0-100, no category, no preferred ingredients. -/
def prefsDefault : CustomerPreferences :=
  ⟨⟨false, false, false, false⟩, [], "medium", ⟨0, 100⟩, none, []⟩

/-- Rating average 4 with 5 votes, popularity 1. -/
def itemHighCount : MenuItem := ⟨"A", "main", 10, [], dietNone, "available", ⟨4, 5⟩, 1⟩

/-- Rating average 4 with 1 vote, popularity 9. -/
def itemHighPop : MenuItem := ⟨"B", "main", 12, [], dietNone, "available", ⟨4, 1⟩, 9⟩

/-- A two-item catalog on which rating-document order and popularity order
disagree. -/
def tieStore : List MenuItem := [itemHighCount, itemHighPop]

/-- An available item containing a nut-tagged ingredient. -/
def itemNutty : MenuItem :=
  ⟨"Satay", "main", 11, [⟨"Peanut Sauce", ["nuts"]⟩], dietNone, "available", ⟨3, 2⟩, 4⟩

/-- An available pasta dish. -/
def itemPasta : MenuItem :=
  ⟨"Penne", "main", 13, [⟨"Pasta", ["gluten"]⟩], dietNone, "available", ⟨4, 2⟩, 2⟩

/-- Preferences with a nut allergy and otherwise the defaults. -/
def prefsNutAllergy : CustomerPreferences :=
  ⟨⟨false, false, false, false⟩, ["nuts"], "medium", ⟨0, 100⟩, none, []⟩

/-- Preferences asking for the ingredient string "pasta". -/
def prefsWantPasta : CustomerPreferences :=
  ⟨⟨false, false, false, false⟩, [], "medium", ⟨0, 100⟩, none, ["pasta"]⟩

/-- A well-formed two-order history: two "main" purchases, one "Pasta"
ingredient, prices 10 and 20. -/
def histGood : List HistOrder :=
  [⟨[⟨some ⟨some "main", some [⟨some "Pasta"⟩]⟩, 10⟩]⟩,
   ⟨[⟨some ⟨some "main", some []⟩, 20⟩]⟩]

/-- A malformed history: one purchased line whose ingredient has no name, the
concrete throw site of the scoring path. -/
def histBad : List HistOrder :=
  [⟨[⟨some ⟨some "main", some [⟨none⟩]⟩, 10⟩]⟩]

/-- The analysis of the empty history. -/
def emptyAnalysis : HistoryAnalysis := ⟨[], [], ⟨0, 100⟩, "medium"⟩

end Fixtures

section FoldLemmas

/-- The category loop body, as a step over the extracted optional category. -/
theorem foldl_catStep (items : List HistOrderItem) :
    ∀ acc : List (String × Nat),
      items.foldl catStep acc =
        (items.filterMap (fun it => it.menuItem.bind (fun mi => mi.category))).foldl
          (fun a c => bump c a) acc := by
  induction items with
  | nil => intro acc; rfl
  | cons it its ih =>
    intro acc
    have hstep : catStep acc it =
        match it.menuItem.bind (fun mi => mi.category) with
        | some c => bump c acc
        | none => acc := by
      cases hm : it.menuItem with
      | none => simp [catStep, hm, Option.bind]
      | some mi => cases hc : mi.category <;> simp [catStep, hm, hc, Option.bind]
    rw [List.foldl_cons, hstep, List.filterMap_cons]
    cases hb : it.menuItem.bind (fun mi => mi.category) with
    | none => exact ih acc
    | some c => rw [List.foldl_cons]; exact ih (bump c acc)

theorem catFold_aux (history : List HistOrder) :
    ∀ acc : List (String × Nat),
      history.foldl (fun acc o => o.items.foldl catStep acc) acc =
        (histCategories history).foldl (fun a c => bump c a) acc := by
  induction history with
  | nil => intro acc; rfl
  | cons o os ih =>
    intro acc
    rw [List.foldl_cons, histCategories, List.flatMap_cons, List.foldl_append,
      foldl_catStep]
    exact ih _

/-- The whole `categoryCount` object is the bump fold of the category
multiset of the history. -/
theorem catFold_eq (history : List HistOrder) :
    catFold history = bumpFold (histCategories history) := by
  rw [catFold, bumpFold, catFold_aux]

theorem foldE_ing_ok (ings : List HistIngredient)
    (h : ings.all (fun ing => ing.name.isSome) = true) :
    ∀ acc : List (String × Nat),
      foldE ingStepE acc ings =
        Except.ok ((ings.filterMap (fun ing => ing.name.map lowerStr)).foldl
          (fun a n => bump n a) acc) := by
  induction ings with
  | nil => intro acc; rfl
  | cons ing ings ih =>
    intro acc
    have h0 := h
    simp only [List.all_cons, Bool.and_eq_true] at h0
    obtain ⟨h1, h2⟩ := h0
    cases hn : ing.name with
    | none => rw [hn] at h1; cases h1
    | some n =>
      rw [foldE, List.filterMap_cons]
      simp only [ingStepE, hn, Option.map]
      rw [List.foldl_cons]
      exact ih h2 _

theorem itemIngFoldE_eq (it : HistOrderItem) (h : ingNamesOk it = true) :
    ∀ acc : List (String × Nat),
      itemIngFoldE acc it =
        Except.ok ((itemIngNamesLower it).foldl (fun a n => bump n a) acc) := by
  intro acc
  cases hm : it.menuItem with
  | none => simp only [itemIngFoldE, itemIngNamesLower, hm]; rfl
  | some mi =>
    cases hi : mi.ingredients with
    | none => simp only [itemIngFoldE, itemIngNamesLower, hm, hi]; rfl
    | some ings =>
      have h' : ings.all (fun ing => ing.name.isSome) = true := by
        simpa only [ingNamesOk, hm, hi] using h
      simp only [itemIngFoldE, itemIngNamesLower, hm, hi]
      exact foldE_ing_ok ings h' acc

theorem foldE_items_ok (items : List HistOrderItem)
    (h : items.all ingNamesOk = true) :
    ∀ acc : List (String × Nat),
      foldE itemIngFoldE acc items =
        Except.ok ((List.flatMap items itemIngNamesLower).foldl
          (fun a n => bump n a) acc) := by
  induction items with
  | nil => intro acc; rfl
  | cons it its ih =>
    intro acc
    have h0 := h
    simp only [List.all_cons, Bool.and_eq_true] at h0
    obtain ⟨h1, h2⟩ := h0
    rw [foldE, itemIngFoldE_eq it h1, List.flatMap_cons, List.foldl_append]
    exact ih h2 _

/-- With every ingredient name present, the `ingredientCount` loop does not
throw and computes the bump fold of the lower-cased name multiset. -/
theorem ingFoldE_eq (history : List HistOrder) (h : namesPresent history = true) :
    ingFoldE history = Except.ok (bumpFold (histIngLower history)) := by
  rw [ingFoldE, bumpFold]
  suffices hgen : ∀ (hs : List HistOrder), hs.all (fun o => o.items.all ingNamesOk) = true →
      ∀ acc : List (String × Nat),
        foldE (fun acc o => foldE itemIngFoldE acc o.items) acc hs =
          Except.ok ((histIngLower hs).foldl (fun a n => bump n a) acc) by
    exact hgen history h []
  intro hs
  induction hs with
  | nil => intro _ acc; rfl
  | cons o os ih =>
    intro hall acc
    have h0 := hall
    simp only [List.all_cons, Bool.and_eq_true] at h0
    obtain ⟨h1, h2⟩ := h0
    rw [foldE, foldE_items_ok o.items h1, histIngLower, List.flatMap_cons,
      List.foldl_append]
    exact ih h2 _

theorem foldl_min_mem (qs : List ℚ) : ∀ q : ℚ, qs.foldl min q ∈ q :: qs := by
  induction qs with
  | nil => intro q; simp
  | cons x xs ih =>
    intro q
    rw [List.foldl_cons]
    rcases List.mem_cons.mp (ih (min q x)) with heq | hmem
    · rcases min_choice q x with h | h
      · rw [heq, h]; exact List.mem_cons_self _ _
      · rw [heq, h]; exact List.mem_cons_of_mem _ (List.mem_cons_self _ _)
    · exact List.mem_cons_of_mem _ (List.mem_cons_of_mem _ hmem)

theorem foldl_min_le (qs : List ℚ) :
    ∀ q : ℚ, ∀ x ∈ q :: qs, qs.foldl min q ≤ x := by
  induction qs with
  | nil =>
    intro q x hx
    rw [List.mem_singleton.mp hx]
    exact le_refl _
  | cons y ys ih =>
    intro q x hx
    rw [List.foldl_cons]
    have hbase : List.foldl min (min q y) ys ≤ min q y :=
      ih (min q y) (min q y) (List.mem_cons_self _ _)
    rcases List.mem_cons.mp hx with heq | hx1
    · rw [heq]
      exact le_trans hbase (min_le_left q y)
    · rcases List.mem_cons.mp hx1 with heq | hx2
      · rw [heq]
        exact le_trans hbase (min_le_right q y)
      · exact ih (min q y) x (List.mem_cons_of_mem _ hx2)

theorem foldl_max_mem (qs : List ℚ) : ∀ q : ℚ, qs.foldl max q ∈ q :: qs := by
  induction qs with
  | nil => intro q; simp
  | cons x xs ih =>
    intro q
    rw [List.foldl_cons]
    rcases List.mem_cons.mp (ih (max q x)) with heq | hmem
    · rcases max_choice q x with h | h
      · rw [heq, h]; exact List.mem_cons_self _ _
      · rw [heq, h]; exact List.mem_cons_of_mem _ (List.mem_cons_self _ _)
    · exact List.mem_cons_of_mem _ (List.mem_cons_of_mem _ hmem)

theorem foldl_le_max (qs : List ℚ) :
    ∀ q : ℚ, ∀ x ∈ q :: qs, x ≤ qs.foldl max q := by
  induction qs with
  | nil =>
    intro q x hx
    rw [List.mem_singleton.mp hx]
    exact le_refl _
  | cons y ys ih =>
    intro q x hx
    rw [List.foldl_cons]
    have hbase : max q y ≤ List.foldl max (max q y) ys :=
      ih (max q y) (max q y) (List.mem_cons_self _ _)
    rcases List.mem_cons.mp hx with heq | hx1
    · rw [heq]
      exact le_trans (le_max_left q y) hbase
    · rcases List.mem_cons.mp hx1 with heq | hx2
      · rw [heq]
        exact le_trans (le_max_right q y) hbase
      · exact ih (max q y) x (List.mem_cons_of_mem _ hx2)

/-- `rankWithAnalysis` is exactly the stable descending sort of the items by
their score. -/
theorem rankWithAnalysis_eq (a : HistoryAnalysis) (items : List MenuItem) :
    rankWithAnalysis a items = sortDescBy (scoreItem a) items := by
  rw [rankWithAnalysis, sortDescBy_map_pair, List.map_map]
  exact List.map_id _

/-- `rankByAI` of the empty candidate list is empty. -/
theorem rankByAI_nil (hist : List HistOrder) : rankByAI [] hist = [] := by
  cases h : analyzeCustomerHistoryE hist with
  | error e => simp [rankByAI, h]
  | ok a => simp [rankByAI, h, rankWithAnalysis_eq, sortDescBy]

end FoldLemmas

section QuerySemantics

theorem optCheck_avail (it : MenuItem) :
    (optCheck (fun s => it.availability == s) (some "available") = true) ↔
      it.availability = "available" := by
  simp [optCheck]

theorem optCheck_flag (b c : Bool) :
    (optCheck (fun x => b == x) (if c then some true else none) = true) ↔
      (c = true → b = true) := by
  cases c <;> simp [optCheck]

theorem optCheck_spice (b : Bool) (s : String) :
    (optCheck (fun x => b == x)
      (if s = "mild" then some false
       else if s = "hot" ∨ s = "extra-hot" then some true else none) = true) ↔
    ((s = "mild" → b = false) ∧ (s = "hot" ∨ s = "extra-hot" → b = true)) := by
  by_cases h1 : s = "mild"
  · have h2 : ¬ (s = "hot" ∨ s = "extra-hot") := by
      rintro (h | h) <;> exact absurd (h1.symm.trans h) (by decide)
    simp [h1, h2, optCheck]
  · by_cases h2 : s = "hot" ∨ s = "extra-hot"
    · simp [h1, h2, optCheck]
    · simp [h1, h2, optCheck]

theorem optCheck_price (it : MenuItem) (mn mx : ℚ) :
    (optCheck (fun pr : ℚ × ℚ => decide (pr.1 ≤ it.price) && decide (it.price ≤ pr.2))
      (some (mn, mx)) = true) ↔ (mn ≤ it.price ∧ it.price ≤ mx) := by
  simp [optCheck]

theorem optCheck_cat (it : MenuItem) (oc : Option String) :
    (optCheck (fun c => it.category == c) oc = true) ↔
      (∀ c, oc = some c → it.category = c) := by
  cases oc with
  | none => simp [optCheck]
  | some c => simp [optCheck]

theorem optCheck_nin (it : MenuItem) (L : List String) :
    (optCheck (fun al : List String => !(it.ingredients.any (fun ing =>
        ing.allergens.any (fun a => al.contains a))))
      (if L.isEmpty then none else some L) = true) ↔
    (L ≠ [] → ¬ ∃ ing ∈ it.ingredients, ∃ a ∈ ing.allergens, a ∈ L) := by
  cases L with
  | nil => simp [optCheck]
  | cons x xs => simp [optCheck]

theorem optCheck_ingr (it : MenuItem) (L : List String) :
    (optCheck (fun pats : List String => it.ingredients.any (fun ing =>
        pats.any (fun pat => icontains ing.name pat)))
      (if L.isEmpty then none else some L) = true) ↔
    (L ≠ [] → ∃ ing ∈ it.ingredients, ∃ pat ∈ L, icontains ing.name pat = true) := by
  cases L with
  | nil => simp [optCheck]
  | cons x xs => simp [optCheck]

/-- Full characterization of the primary filter semantics: which items of the
catalog the query built by `getRecommendations` admits. -/
theorem matchesPrimary_iff (p : CustomerPreferences) (it : MenuItem) :
    matchesQuery (buildPrimaryQuery p) it = true ↔
      (it.availability = "available" ∧
       (p.dietary.vegetarian = true → it.dietary.vegetarian = true) ∧
       (p.dietary.vegan = true → it.dietary.vegan = true) ∧
       (p.dietary.glutenFree = true → it.dietary.glutenFree = true) ∧
       (p.dietary.dairyFree = true → it.dietary.dairyFree = true) ∧
       (p.spiceLevel = "mild" → it.dietary.spicy = false) ∧
       (p.spiceLevel = "hot" ∨ p.spiceLevel = "extra-hot" → it.dietary.spicy = true) ∧
       p.priceRange.min ≤ it.price ∧ it.price ≤ p.priceRange.max ∧
       (∀ c, p.category = some c → it.category = c) ∧
       (p.allergies ≠ [] →
         ¬ ∃ ing ∈ it.ingredients, ∃ a ∈ ing.allergens, a ∈ p.allergies) ∧
       (p.ingredients ≠ [] →
         ∃ ing ∈ it.ingredients, ∃ pat ∈ p.ingredients, icontains ing.name pat = true)) := by
  rw [matchesQuery]
  simp only [buildPrimaryQuery, Bool.and_eq_true]
  rw [optCheck_avail, optCheck_flag, optCheck_flag, optCheck_flag, optCheck_flag,
    optCheck_spice, optCheck_price, optCheck_cat, optCheck_nin, optCheck_ingr]
  tauto

/-- Full characterization of the relaxed fallback filter: availability plus,
when vegetarian or vegan was requested, the vegetarian flag. -/
theorem matchesRelaxed_iff (p : CustomerPreferences) (it : MenuItem) :
    matchesQuery (relaxedQuery p) it = true ↔
      (it.availability = "available" ∧
       (p.dietary.vegetarian = true ∨ p.dietary.vegan = true →
         it.dietary.vegetarian = true)) := by
  cases hv : p.dietary.vegetarian <;> cases hg : p.dietary.vegan <;>
    simp [relaxedQuery, hv, hg, matchesQuery, optCheck, emptyQuery]

end QuerySemantics

section RatingLemmas

theorem updateRating_foldl (rs : List ℚ) :
    ∀ st : Rating, 0 ≤ st.count →
      ((rs.foldl updateRating st).count = st.count + rs.length ∧
       (rs.foldl updateRating st).average * (rs.foldl updateRating st).count =
         st.average * st.count + rs.sum) := by
  induction rs with
  | nil => intro st h; constructor <;> simp
  | cons r rs ih =>
    intro st h0
    rw [List.foldl_cons]
    have hpos : (0:ℚ) < st.count + 1 := by linarith
    have hstep : (updateRating st r).count = st.count + 1 := rfl
    have hcount0 : 0 ≤ (updateRating st r).count := by rw [hstep]; linarith
    obtain ⟨h1, h2⟩ := ih (updateRating st r) hcount0
    refine ⟨?_, ?_⟩
    · rw [h1, hstep, List.length_cons]
      push_cast
      ring
    · rw [h2]
      have havg : (updateRating st r).average * (updateRating st r).count =
          st.average * st.count + r := by
        show ((st.average * st.count + r) / (st.count + 1)) * (st.count + 1) = _
        rw [div_mul_cancel₀ _ (ne_of_gt hpos)]
      rw [havg, List.sum_cons]
      ring

end RatingLemmas

section RankHelpers

/-- The ranker never adds, drops or duplicates candidates. -/
theorem rankByAI_perm (items : List MenuItem) (hist : List HistOrder) :
    (rankByAI items hist).Perm items := by
  cases h : analyzeCustomerHistoryE hist with
  | error e =>
    simp only [rankByAI, h]
    exact List.Perm.refl _
  | ok a =>
    simp only [rankByAI, h, rankWithAnalysis_eq]
    exact sortDescBy_perm _ _

end RankHelpers

/-- C6: the primary filter requires availability `available`, each requested
dietary flag on the item (AND semantics), maps spice level `mild` to
`spicy = false` and `hot`/`extra-hot` to `spicy = true` with `medium`
imposing no spice constraint, constrains price to the inclusive interval,
and constrains category to exact equality when a category is given; the
remaining two conjuncts show the only other constraints are the allergy and
preferred-ingredient clauses. -/
theorem primary_filter_semantics (p : CustomerPreferences) (it : MenuItem) :
    matchesQuery (buildPrimaryQuery p) it = true ↔
      (it.availability = "available" ∧
       (p.dietary.vegetarian = true → it.dietary.vegetarian = true) ∧
       (p.dietary.vegan = true → it.dietary.vegan = true) ∧
       (p.dietary.glutenFree = true → it.dietary.glutenFree = true) ∧
       (p.dietary.dairyFree = true → it.dietary.dairyFree = true) ∧
       (p.spiceLevel = "mild" → it.dietary.spicy = false) ∧
       (p.spiceLevel = "hot" ∨ p.spiceLevel = "extra-hot" → it.dietary.spicy = true) ∧
       p.priceRange.min ≤ it.price ∧ it.price ≤ p.priceRange.max ∧
       (∀ c, p.category = some c → it.category = c) ∧
       (p.allergies ≠ [] →
         ¬ ∃ ing ∈ it.ingredients, ∃ a ∈ ing.allergens, a ∈ p.allergies) ∧
       (p.ingredients ≠ [] →
         ∃ ing ∈ it.ingredients, ∃ pat ∈ p.ingredients, icontains ing.name pat = true)) :=
  matchesPrimary_iff p it

/-- C7: a non-empty allergy list excludes every item with a matching
ingredient allergen tag, and a non-empty preferred-ingredient list admits,
among the items passing the other constraints, exactly the items with at
least one case-insensitive substring match on an ingredient name. -/
theorem allergy_ingredient_filter (p : CustomerPreferences) (it : MenuItem) :
    ((∃ ing ∈ it.ingredients, ∃ a ∈ ing.allergens, a ∈ p.allergies) →
      matchesQuery (buildPrimaryQuery p) it = false)
    ∧ (p.ingredients ≠ [] →
       (matchesQuery (buildPrimaryQuery p) it = true ↔
        (matchesQuery (buildPrimaryQuery
            ⟨p.dietary, p.allergies, p.spiceLevel, p.priceRange, p.category, []⟩) it = true
         ∧ ∃ ing ∈ it.ingredients, ∃ pat ∈ p.ingredients,
             icontains ing.name pat = true))) := by
  constructor
  · intro hex
    cases h : matchesQuery (buildPrimaryQuery p) it with
    | false => rfl
    | true =>
      obtain ⟨ing, hing, a, ha, hal⟩ := hex
      have hne : p.allergies ≠ [] := by
        intro hnil
        rw [hnil] at hal
        exact absurd hal (List.not_mem_nil a)
      obtain ⟨_, _, _, _, _, _, _, _, _, _, hnin, _⟩ := (matchesPrimary_iff p it).mp h
      exact absurd ⟨ing, hing, a, ha, hal⟩ (hnin hne)
  · intro hne
    rw [matchesPrimary_iff, matchesPrimary_iff]
    simp only [hne, ne_eq, not_true_eq_false, not_false_eq_true, forall_const]
    constructor
    · rintro ⟨h1, h2, h3, h4, h5, h6, h7, h8, h9, h10, h11, h12⟩
      exact ⟨⟨h1, h2, h3, h4, h5, h6, h7, h8, h9, h10, h11, by simp⟩, h12⟩
    · rintro ⟨⟨h1, h2, h3, h4, h5, h6, h7, h8, h9, h10, h11, _⟩, h12⟩
      exact ⟨h1, h2, h3, h4, h5, h6, h7, h8, h9, h10, h11, h12⟩

/-- Witness for the allergy / preferred-ingredient filter theorem at a
concrete catalog item and preference set. -/
theorem allergy_ingredient_filter_witness :
    matchesQuery (buildPrimaryQuery prefsNutAllergy) itemNutty = false
    ∧ (matchesQuery (buildPrimaryQuery prefsWantPasta) itemPasta = true ↔
       (matchesQuery (buildPrimaryQuery
           ⟨prefsWantPasta.dietary, prefsWantPasta.allergies, prefsWantPasta.spiceLevel,
            prefsWantPasta.priceRange, prefsWantPasta.category, []⟩) itemPasta = true
        ∧ ∃ ing ∈ itemPasta.ingredients, ∃ pat ∈ prefsWantPasta.ingredients,
            icontains ing.name pat = true)) :=
  ⟨(allergy_ingredient_filter prefsNutAllergy itemNutty).1 (by decide),
   (allergy_ingredient_filter prefsWantPasta itemPasta).2 (by decide)⟩

/-- C1: when the primary filter yields no candidates, `getRecommendations`
performs exactly one retry whose filter keeps only availability plus a
vegetarian constraint when vegetarian or vegan was requested, and a second
empty result still produces a successful response with an empty
recommendation list. -/
theorem recommendations_fallback (store : List MenuItem) (p : CustomerPreferences)
    (hist : List HistOrder)
    (h : menuFind store (buildPrimaryQuery p) = []) :
    ((getRecommendations store p hist).recommendations).Perm
        (menuFind store (relaxedQuery p))
    ∧ (∀ it, matchesQuery (relaxedQuery p) it = true ↔
        (it.availability = "available" ∧
         (p.dietary.vegetarian = true ∨ p.dietary.vegan = true →
           it.dietary.vegetarian = true)))
    ∧ (menuFind store (relaxedQuery p) = [] →
        getRecommendations store p hist = ⟨true, [], 0, p⟩) := by
  refine ⟨?_, fun it => matchesRelaxed_iff p it, ?_⟩
  · simp only [getRecommendations, h, List.isEmpty_nil, if_true]
    cases hh : hist.isEmpty with
    | true => simp [hh]
    | false => simp only [hh, Bool.false_eq_true, if_false]; exact rankByAI_perm _ hist
  · intro hrel
    simp [getRecommendations, h, hrel, rankByAI_nil]

/-- Witness for the fallback theorem on the empty catalog. -/
theorem recommendations_fallback_witness :
    (menuFind ([] : List MenuItem) (buildPrimaryQuery prefsDefault) = [])
    ∧ getRecommendations [] prefsDefault [] = ⟨true, [], 0, prefsDefault⟩ :=
  ⟨by decide,
   (recommendations_fallback [] prefsDefault [] (by decide)).2.2 (by decide)⟩

/-- C8 (amended): both matcher passes return at most 10 items ordered
descending by the Mongo sort key of `{rating: -1, popularity: -1}`, which
compares the rating document (average, then count) before popularity. -/
theorem matcher_ordering_amended (store : List MenuItem) (p : CustomerPreferences) :
    ((menuFind store (buildPrimaryQuery p)).Pairwise
        (fun a b => mongoKey b ≤ mongoKey a)
     ∧ (menuFind store (buildPrimaryQuery p)).length ≤ 10)
    ∧ ((menuFind store (relaxedQuery p)).Pairwise
        (fun a b => mongoKey b ≤ mongoKey a)
     ∧ (menuFind store (relaxedQuery p)).length ≤ 10)
    ∧ (∀ a b : MenuItem, mongoKey b ≤ mongoKey a ↔
        (b.rating.average < a.rating.average ∨
         (b.rating.average = a.rating.average ∧
          (b.rating.count < a.rating.count ∨
           (b.rating.count = a.rating.count ∧ b.popularity ≤ a.popularity))))) := by
  refine ⟨⟨?_, ?_⟩, ⟨?_, ?_⟩, ?_⟩
  · exact List.Pairwise.sublist (List.take_sublist 10 _) (sortDescBy_pairwise mongoKey _)
  · exact List.length_take_le 10 _
  · exact List.Pairwise.sublist (List.take_sublist 10 _) (sortDescBy_pairwise mongoKey _)
  · exact List.length_take_le 10 _
  · intro a b
    simp [mongoKey, Prod.Lex.le_iff]

/-- Counterexample to C8 as stated: on a catalog of two available items both
with rating average 4, where the first has rating count 5 and popularity 1
and the second rating count 1 and popularity 9, the matcher returns them in
count order, so the result is not ordered by rating average then popularity. -/
theorem matcher_ordering_counterexample :
    claimedOrderedB (menuFind tieStore (buildPrimaryQuery prefsDefault)) = false := by
  decide

/-- C2: given a successful history analysis, the ranker output is sorted
descending by the documented score, the relative order of equal-score
candidates is preserved, and the score is exactly
`rating.average*0.4 + popularity*0.1 + 0.3·[category ∈ top-3] +
0.2·(matching-ingredient count) + 0.2·[price within band]`. -/
theorem ranker_score_sort (items : List MenuItem) (hist : List HistOrder)
    (a : HistoryAnalysis) (h : analyzeCustomerHistoryE hist = Except.ok a) :
    (rankByAI items hist).Pairwise
        (fun x y => scoreItem a y ≤ scoreItem a x)
    ∧ (∀ s : ℚ, (rankByAI items hist).filter (fun x => decide (scoreItem a x = s)) =
        items.filter (fun x => decide (scoreItem a x = s)))
    ∧ (∀ it : MenuItem, scoreItem a it =
        it.rating.average * (4/10) + it.popularity * (1/10) +
        (if it.category ∈ a.preferredCategories then (3/10) else 0) +
        ((it.ingredients.filter (fun ing =>
            decide (lowerStr ing.name ∈ a.preferredIngredients))).length : ℚ) * (2/10) +
        (if a.priceRange.min ≤ it.price ∧ it.price ≤ a.priceRange.max
         then (2/10) else 0)) := by
  have hr : rankByAI items hist = sortDescBy (scoreItem a) items := by
    simp only [rankByAI, h, rankWithAnalysis_eq]
  refine ⟨?_, ?_, ?_⟩
  · rw [hr]; exact sortDescBy_pairwise _ _
  · intro s; rw [hr]; exact sortDescBy_filter _ s items
  · intro it
    simp [scoreItem]

/-- Witness: the ranker theorem applied to the empty history (whose analysis
succeeds with the default signals) and a single candidate. -/
theorem ranker_score_sort_witness :
    analyzeCustomerHistoryE [] = Except.ok emptyAnalysis
    ∧ (rankByAI [itemHighCount] []).Pairwise
        (fun x y => scoreItem emptyAnalysis y ≤ scoreItem emptyAnalysis x) :=
  ⟨by decide, (ranker_score_sort [itemHighCount] [] emptyAnalysis (by decide)).1⟩

/-- C4: the ranker output is a permutation of its input, and when the history
analysis throws (the only throw site of the scoring path), the output is
exactly the input in its original order. -/
theorem ranker_permutation (items : List MenuItem) (hist : List HistOrder) :
    (rankByAI items hist).Perm items
    ∧ (∀ e, analyzeCustomerHistoryE hist = Except.error e →
        rankByAI items hist = items) :=
  ⟨rankByAI_perm items hist, fun e h => by simp [rankByAI, h]⟩

/-- Witness: the malformed history (an ingredient without a name) makes the
analysis throw, and the ranker returns the input list unchanged. -/
theorem ranker_permutation_witness :
    analyzeCustomerHistoryE histBad = Except.error ()
    ∧ rankByAI [itemPasta] histBad = [itemPasta] :=
  ⟨by decide, (ranker_permutation [itemPasta] histBad).2 () (by decide)⟩

/-- C3: on a non-empty history whose ingredient names are present, the
analysis yields the top-3 categories and top-10 lower-cased ingredient names
by occurrence count with ties broken by first appearance (this is what
`specTopFrequent` builds: a stable descending sort, over keys listed in
first-seen order), and a price band `[min·0.8, max·1.2]` over the observed
prices, witnessed by explicit minimum and maximum elements. -/
theorem history_analysis_signals (hist : List HistOrder) (hne : hist ≠ [])
    (hnames : namesPresent hist = true) :
    analyzeCustomerHistoryE hist = Except.ok
      ⟨specTopFrequent 3 (histCategories hist), specTopFrequent 10 (histIngLower hist),
       specBand (histPrices hist), "medium"⟩
    ∧ (∀ (q : ℚ) (qs : List ℚ), histPrices hist = q :: qs →
        ∃ m M : ℚ, m ∈ histPrices hist ∧ (∀ x ∈ histPrices hist, m ≤ x) ∧
          M ∈ histPrices hist ∧ (∀ x ∈ histPrices hist, x ≤ M) ∧
          specBand (histPrices hist) = ⟨m * (8/10), M * (12/10)⟩) := by
  constructor
  · have hie : hist.isEmpty = false := by
      cases hist with
      | nil => exact absurd rfl hne
      | cons a l => rfl
    rw [analyzeCustomerHistoryE, if_neg (by simp [hie]), ingFoldE_eq hist hnames]
    simp only []
    rw [catFold_eq, bumpFold_eq, bumpFold_eq]
    rfl
  · intro q qs heq
    refine ⟨qs.foldl min q, qs.foldl max q, ?_, ?_, ?_, ?_, ?_⟩
    · rw [heq]; exact foldl_min_mem qs q
    · rw [heq]; exact foldl_min_le qs q
    · rw [heq]; exact foldl_max_mem qs q
    · rw [heq]; exact foldl_le_max qs q
    · rw [heq]; rfl

/-- Witness: the analysis theorem applied to a concrete two-order history. -/
theorem history_analysis_signals_witness :
    histGood ≠ [] ∧ namesPresent histGood = true
    ∧ analyzeCustomerHistoryE histGood = Except.ok
        ⟨specTopFrequent 3 (histCategories histGood),
         specTopFrequent 10 (histIngLower histGood),
         specBand (histPrices histGood), "medium"⟩ :=
  ⟨by decide, by decide,
   (history_analysis_signals histGood (by decide) (by decide)).1⟩

/-- C10: one rating submission moves the state `(a, n)` to count `n + 1` and
average `(a·n + r)/(n + 1)`; consequently, starting from the schema default
`(0, 0)`, after any non-empty sequence of submissions the stored average is
the arithmetic mean of all submitted ratings and the count their number. -/
theorem rating_running_mean :
    (∀ (st : Rating) (r : ℚ),
       (updateRating st r).count = st.count + 1 ∧
       (updateRating st r).average = (st.average * st.count + r) / (st.count + 1))
    ∧ (∀ rs : List ℚ, rs ≠ [] →
        ((rs.foldl updateRating ⟨0, 0⟩).count = (rs.length : ℚ) ∧
         (rs.foldl updateRating ⟨0, 0⟩).average = rs.sum / (rs.length : ℚ))) := by
  constructor
  · intro st r
    exact ⟨rfl, rfl⟩
  · intro rs hne
    obtain ⟨h1, h2⟩ := updateRating_foldl rs ⟨0, 0⟩ (le_refl 0)
    have hc : (rs.foldl updateRating ⟨0, 0⟩).count = (rs.length : ℚ) := by
      rw [h1]
      exact zero_add _
    refine ⟨hc, ?_⟩
    have hlen : ((rs.length : ℚ)) ≠ 0 := by
      have hl : rs.length ≠ 0 := fun h0 => hne (List.length_eq_zero.mp h0)
      exact_mod_cast hl
    rw [eq_div_iff hlen, ← hc, h2]
    ring

/-- Witness: two submitted ratings 4 and 5 leave count 2 and the mean. -/
theorem rating_running_mean_witness :
    ([(4 : ℚ), 5] ≠ [])
    ∧ (([(4 : ℚ), 5].foldl updateRating ⟨0, 0⟩).count = (([(4 : ℚ), 5].length : ℚ))
    ∧ ([(4 : ℚ), 5].foldl updateRating ⟨0, 0⟩).average =
        [(4 : ℚ), 5].sum / (([(4 : ℚ), 5].length : ℚ))) :=
  ⟨by decide, rating_running_mean.2 [4, 5] (by decide)⟩

/-- C5, evaluated at the failing input: a first `/sales` request at time 0
computes payload 7 and stores it; a second request 60 seconds later hits
the cache window but serves an empty object (`data = none`, `cached = true`)
instead of the stored payload, because the middleware reads
`analyticsCache['/sales']` while the handler stored under `salesData`;
a request at 300 seconds is past the window and recomputes (payload 9). -/
theorem cache_key_mismatch :
    (handleSales (emptyAnalyticsCache : AnalyticsCache Nat) 0 7).1.data = some 7
    ∧ (handleSales (handleSales (emptyAnalyticsCache : AnalyticsCache Nat) 0 7).2
        60000 9).1.data = none
    ∧ (handleSales (handleSales (emptyAnalyticsCache : AnalyticsCache Nat) 0 7).2
        60000 9).1.cached = true
    ∧ (handleSales (handleSales (emptyAnalyticsCache : AnalyticsCache Nat) 0 7).2
        300000 9).1.data = some 9 := by
  decide

/-- C9: with no credential, enhancement returns the input description
unchanged and Q&A returns the fixed fallback result tagged `fallback`; with
any credential, a thrown call (timeout, network error) or a malformed
response body degrades to the original description resp. a fallback-tagged
result, and every Q&A result is tagged either `ai` or `fallback` — the
operations are total and never propagate an error. -/
theorem enrichment_fallback :
    (∀ (outcome : ApiOutcome) (orig : String),
       enhanceDescription none outcome orig = orig)
    ∧ (∀ outcome : ApiOutcome, answerQuestion none outcome = noKeyAnswer)
    ∧ noKeyAnswer.source = "fallback"
    ∧ (∀ (key : Option String) (orig : String),
       enhanceDescription key ApiOutcome.failure orig = orig)
    ∧ (∀ (key : Option String) (orig : String),
       enhanceDescription key (ApiOutcome.success none) orig = orig)
    ∧ (∀ key : Option String,
       (answerQuestion key ApiOutcome.failure).source = "fallback" ∧
       (answerQuestion key ApiOutcome.failure).success = false)
    ∧ (∀ key : Option String,
       (answerQuestion key (ApiOutcome.success none)).source = "fallback")
    ∧ (∀ (key : Option String) (outcome : ApiOutcome),
       (answerQuestion key outcome).source = "ai" ∨
       (answerQuestion key outcome).source = "fallback") := by
  refine ⟨fun outcome orig => rfl, fun outcome => rfl, rfl, ?_, ?_, ?_, ?_, ?_⟩
  · intro key orig
    cases key <;> rfl
  · intro key orig
    cases key <;> rfl
  · intro key
    cases key <;> exact ⟨rfl, rfl⟩
  · intro key
    cases key <;> rfl
  · intro key outcome
    cases key with
    | none => exact Or.inr rfl
    | some k =>
      cases outcome with
      | failure => exact Or.inr rfl
      | success c =>
        cases c with
        | none => exact Or.inr rfl
        | some s =>
          left
          simp only [answerQuestion]
          split <;> rfl
